import Mathlib

/-!
Verification of the data-preparation pipeline of the CET521 crash-inference
repository.  The definitions below are a shallow embedding of the functions in
src/dataprep/s1_copy_attr.py and src/dataprep/s3_merge.py:

* strings are lists of character codes (the column names are ASCII), with the
  Python per-character lower/upper maps embedded as pyLower/pyUpper;
* dataframes are lists of rows (structures, or lists of cells where column
  position matters);
* the sqlite interval joins of meta_merge are embedded as innerJoin/leftJoin
  over lists, with the WHERE/ON predicates translated literally;
* the `sample(frac=1)` shuffle is embedded by quantifying over an arbitrary
  permutation of the indexed join output, `drop_duplicates(subset=CASENO)`
  as a first-wins scan and `sort_index` as an insertion sort on the index;
* fallible steps (the asserts of search_n_move, the pandas column selection
  with a missing or None key) return Except values.
-/

namespace CrashInference

/-- Python str.lower for a single ASCII character code: an uppercase letter
(codes 65..90) moves down by 32, anything else is unchanged. -/
def pyLower (c : Nat) : Nat := if 65 ≤ c ∧ c ≤ 90 then c + 32 else c

/-- Python str.upper for a single ASCII character code: a lowercase letter
(codes 97..122) moves up by 32, anything else is unchanged. -/
def pyUpper (c : Nat) : Nat := if 97 ≤ c ∧ c ≤ 122 then c - 32 else c

/-- A Python string, as its list of character codes. -/
abbrev Str := List Nat

/-- Embeds the character loop of `match` in s1_copy_attr.py: walk the two
strings in lockstep and return False at the first position where the second
character is neither the lowercase nor the uppercase of the first. -/
def matchLoop : Str → Str → Bool
  | f :: fs, s :: ss =>
      if pyLower f ≠ s ∧ pyUpper f ≠ s then false else matchLoop fs ss
  | _, _ => true

/-- Embeds `match(first, second)` of s1_copy_attr.py: a length check followed
by the per-character loop. -/
def strMatch (first second : Str) : Bool :=
  if first.length ≠ second.length then false else matchLoop first second

/-- Embeds `find_match(col, ref_list)` of s1_copy_attr.py: scan the reference
list and report whether some entry matches (the debug print is a side effect
with no bearing on the result). -/
def find_match (col : Str) : List Str → Bool
  | [] => false
  | r :: rs => if strMatch col r then true else find_match col rs

/-- Embeds `rename_col(col, ref_list)` of s1_copy_attr.py: scan the reference
list and return the first matching entry, or None. -/
def rename_col (col : Str) : List Str → Option Str
  | [] => none
  | r :: rs => if strMatch col r then some r else rename_col col rs

/-- The string AcCtYpE as character codes. -/
def strAcCtYpE : Str := [65, 99, 67, 116, 89, 112, 69]

/-- The string acctype as character codes. -/
def stracctype : Str := [97, 99, 99, 116, 121, 112, 101]

/-- The string ACC as character codes. -/
def strACC : Str := [65, 67, 67]

/-- The string ACCX as character codes. -/
def strACCX : Str := [65, 67, 67, 88]

/-- The string FOO as character codes. -/
def strFOO : Str := [70, 79, 79]

/-- The string BAR as character codes. -/
def strBAR : Str := [66, 65, 82]

/-- Error raised by the embedded pandas column selection: a KeyError carries
no category, year or attribute payload, it is the generic lookup failure that
`backup_df[val]` produces when `val` holds a None or an unknown name. -/
inductive PdError where
  | keyError
deriving DecidableEq

/-- Embeds the pandas column selection `backup_df[val]` of s1_copy_attr.py
line 156, restricted to what search_n_move passes it: a list of resolved
names.  Selecting by a None name, or by a name that is not a column of the
table, fails with the generic KeyError. -/
def selectByNames (cols : List Str) : List (Option Str) → Except PdError (List Str)
  | [] => Except.ok []
  | none :: _ => Except.error PdError.keyError
  | some nm :: rest =>
      if nm ∈ cols then
        match selectByNames cols rest with
        | Except.ok rs => Except.ok (nm :: rs)
        | Except.error e => Except.error e
      else Except.error PdError.keyError

/-- Embeds lines 155..156 of s1_copy_attr.py: resolve every requested
attribute against the backup columns with rename_col (an unmatched attribute
resolves to None) and then select the resolved names from the backup table. -/
def resolve_then_select (val : List Str) (backup_cols : List Str) :
    Except PdError (List Str) :=
  selectByNames backup_cols (val.map fun col => rename_col col backup_cols)

/-- Failure of one of the three asserts guarding the reconciliation merge of
search_n_move (s1_copy_attr.py lines 157, 163, 164). -/
inductive MergeErr where
  | shapeAssert
  | rowAssert
  | colAssert
deriving DecidableEq

/-- A dataframe reduced to what the asserts of search_n_move observe: its
rows (lists of cells) and its column count. -/
structure Table where
  rows : List (List Int)
  ncol : Nat
deriving DecidableEq

/-- Embeds `pd.merge(lack_df, backup_df, left_index=True, right_index=True)`
for two tables freshly read from disk: both carry the default 0..n-1 index,
so the inner merge on the index pairs rows positionally and stops at the
shorter table. -/
def merge_on_index (a b : Table) : Table :=
  ⟨List.zipWith (fun r s => r ++ s) a.rows b.rows, a.ncol + b.ncol⟩

/-- Embeds lines 156..164 of s1_copy_attr.py: the shape assert on the selected
backup columns, the positional merge, and the row-count and column-count
asserts comparing the merged table with the primary table. -/
def merge_step (lack backup : Table) (nval : Nat) : Except MergeErr Table :=
  if backup.ncol = nval then
    let merged := merge_on_index lack backup
    if merged.rows.length = lack.rows.length then
      if lack.ncol + nval = merged.ncol then Except.ok merged
      else Except.error MergeErr.colAssert
    else Except.error MergeErr.rowAssert
  else Except.error MergeErr.shapeAssert

/-- One vehicle record of a wa-veh table, reduced to the columns veh_agg
reads (s3_merge.py lines 237..244). -/
structure VehRow where
  CASENO : Int
  DRV_SEX : Int
  DRV_AGE : Int
  vehtype : Int
  vehyr : Int
  intox : Int
deriving DecidableEq

/-- Embeds the local function `sex` of veh_agg: True at the first driver sex
code greater than 1. -/
def sexScan : List Int → Bool
  | [] => false
  | e :: es => if e > 1 then true else sexScan es

/-- Embeds the local function `young` of veh_agg: True at the first driver
age below 25. -/
def youngScan : List Int → Bool
  | [] => false
  | e :: es => if e < 25 then true else youngScan es

/-- Embeds the local function `old` of veh_agg: True at the first driver age
above 65. -/
def oldScan : List Int → Bool
  | [] => false
  | e :: es => if e > 65 then true else oldScan es

/-- Embeds the local function `drink` of veh_agg: True at the first
intoxication code equal to 1 or 5. -/
def drinkScan : List Int → Bool
  | [] => false
  | e :: es => if e = 1 ∨ e = 5 then true else drinkScan es

/-- Embeds the local function `truck` of veh_agg: True at the first vehicle
type code greater than 4. -/
def truckScan : List Int → Bool
  | [] => false
  | e :: es => if e > 4 then true else truckScan es

/-- Embeds the local function `old_car` of veh_agg: decode the two-digit
model-year code (1900 plus 100+code when the code is below 10 or below 20,
1900 plus the code otherwise) and return True at the first vehicle whose
decoded model year is at least 15 years before the crash year. -/
def old_car (crash_year : Int) : List Int → Bool
  | [] => false
  | e :: es =>
      let model_year : Int :=
        if e < 10 then 1900 + (100 + e)
        else if e < 20 then 1900 + (100 + e)
        else 1900 + e
      if crash_year - model_year ≥ 15 then true else old_car crash_year es

/-- The rows of a vehicle table sharing one case number, in table order: the
group that `groupby(CASENO)` hands to each aggregation function. -/
def vehGroup (df : List VehRow) (cn : Int) : List VehRow :=
  df.filter fun r => r.CASENO = cn

/-- One output row of veh_agg: each aggregated column for one case number. -/
structure VehAggRow where
  CASENO : Int
  sex : Bool
  young : Bool
  old : Bool
  truck : Bool
  old_car : Bool
  drink : Bool
deriving DecidableEq

/-- The aggregated row veh_agg produces for one case number: every scan runs
over the matching column of the rows of that group. -/
def veh_agg_row (crash_year : Int) (df : List VehRow) (cn : Int) : VehAggRow :=
  { CASENO := cn
    sex := sexScan ((vehGroup df cn).map VehRow.DRV_SEX)
    young := youngScan ((vehGroup df cn).map VehRow.DRV_AGE)
    old := oldScan ((vehGroup df cn).map VehRow.DRV_AGE)
    truck := truckScan ((vehGroup df cn).map VehRow.vehtype)
    old_car := old_car crash_year ((vehGroup df cn).map VehRow.vehyr)
    drink := drinkScan ((vehGroup df cn).map VehRow.intox) }

/-- First-wins scan with an accumulator of keys already kept: the helper
behind the embedded drop_duplicates. -/
def dedupFirstAux {α : Type} (key : α → Int) (seen : List Int) : List α → List α
  | [] => []
  | x :: xs =>
      if key x ∈ seen then dedupFirstAux key seen xs
      else x :: dedupFirstAux key (key x :: seen) xs

/-- Embeds `drop_duplicates(subset=CASENO)` (keep=first): keep the first row
of each key in list order. -/
def dedupFirst {α : Type} (key : α → Int) (l : List α) : List α :=
  dedupFirstAux key [] l

/-- Embeds `veh_agg(df, crash_year)`: group the table by case number (the
groupby keys are the distinct case numbers in ascending order) and build one
aggregated row per group. -/
def veh_agg (crash_year : Int) (df : List VehRow) : List VehAggRow :=
  (List.insertionSort (fun a b => a ≤ b)
      (dedupFirst (fun k => k) (df.map VehRow.CASENO))).map
    (veh_agg_row crash_year df)

/-- One crash record of the per-year accident table, reduced to the columns
the interval joins of meta_merge read. -/
structure CrashRow where
  CASENO : Int
  rd_inv : Int
  milepost : Int
deriving DecidableEq

/-- One row of the per-year road table, with its inventory key, its milepost
range and its remaining attributes abbreviated to one payload column. -/
structure RoadSeg where
  ROAD_INV : Int
  BEGMP : Int
  ENDMP : Int
  AADT : Int
deriving DecidableEq

/-- The WHERE clause of the road query of meta_merge (s3_merge.py lines
342..345): equal inventory key and milepost inside the closed range. -/
def roadPred (c : CrashRow) (s : RoadSeg) : Bool :=
  decide (c.rd_inv = s.ROAD_INV ∧ s.BEGMP ≤ c.milepost ∧ c.milepost ≤ s.ENDMP)

/-- The sqlite `SELECT * FROM a, b WHERE pred` of the road stage: every pair
of rows satisfying the predicate, scanned in nested-loop order. -/
def innerJoin {α β : Type} (pred : α → β → Bool) (as0 : List α) (bs : List β) :
    List (α × β) :=
  as0.flatMap fun a => (bs.filter (pred a)).map fun b => (a, b)

/-- The road join of meta_merge: crash rows against road segments under
roadPred. -/
def roadJoin (crash : List CrashRow) (road : List RoadSeg) :
    List (CrashRow × RoadSeg) :=
  innerJoin roadPred crash road

/-- A road-stage output row once the connecting keys ROAD_INV, BEGMP, ENDMP
are dropped: the crash columns plus the road payload. -/
structure RecR where
  cr : CrashRow
  AADT : Int
deriving DecidableEq

/-- Embeds `records.drop([ROAD_INV, BEGMP, ENDMP], axis=1)` on one joined
pair. -/
def dropRoadKeys (p : CrashRow × RoadSeg) : RecR :=
  ⟨p.1, p.2.AADT⟩

/-- One row of the per-year curve table. -/
structure CurvSeg where
  curv_inv : Int
  begmp : Int
  endmp : Int
  deg_curv : Int
deriving DecidableEq

/-- The ON clause of the curve query of meta_merge (s3_merge.py lines
359..362). -/
def curvPred (r : RecR) (s : CurvSeg) : Bool :=
  decide (r.cr.rd_inv = s.curv_inv ∧ s.begmp ≤ r.cr.milepost ∧
    r.cr.milepost ≤ s.endmp)

/-- The sqlite `SELECT * FROM a LEFT JOIN b ON pred`: each left row paired
with every matching right row, or with none when nothing matches. -/
def leftJoin {α β : Type} [DecidableEq β] (pred : α → β → Bool)
    (records : List α) (tbl : List β) : List (α × Option β) :=
  records.flatMap fun r =>
    if tbl.filter (pred r) = [] then [(r, none)]
    else (tbl.filter (pred r)).map fun s => (r, some s)

/-- The curve join of meta_merge: road-stage rows against curve segments
under curvPred, left-join semantics. -/
def curvJoin (records : List RecR) (curv : List CurvSeg) :
    List (RecR × Option CurvSeg) :=
  leftJoin curvPred records curv

/-- A curve-stage output row once curv_inv, begmp, endmp are dropped: the
previous columns plus deg_curv, still nullable until the fillna. -/
structure RecC where
  base : RecR
  deg_curv : Option Int
deriving DecidableEq

/-- Embeds the drop of the curve connecting keys on one joined pair. -/
def dropCurvKeys (p : RecR × Option CurvSeg) : RecC :=
  ⟨p.1, p.2.map CurvSeg.deg_curv⟩

/-- Embeds `records.fillna(value={deg_curv: 0})` on one row: a null curvature
becomes 0, a present value is kept. -/
def fillCurv (r : RecC) : RecC :=
  { r with deg_curv := some (r.deg_curv.getD 0) }

/-- One row of the per-year grade table: inventory key, milepost range, the
grade direction (a short string) and the grade percentage. -/
structure GradSeg where
  grad_inv : Int
  begmp : Int
  endmp : Int
  dir_grad : Str
  pct_grad : Int
deriving DecidableEq

/-- The ON clause of the grade query of meta_merge (s3_merge.py lines
378..381). -/
def gradPred (r : RecC) (s : GradSeg) : Bool :=
  decide (r.base.cr.rd_inv = s.grad_inv ∧ s.begmp ≤ r.base.cr.milepost ∧
    r.base.cr.milepost ≤ s.endmp)

/-- The grade join of meta_merge: curve-stage rows against grade segments
under gradPred, left-join semantics. -/
def gradJoin (records : List RecC) (grad : List GradSeg) :
    List (RecC × Option GradSeg) :=
  leftJoin gradPred records grad

/-- A grade-stage output row once grad_inv, begmp, endmp are dropped: the
previous columns plus dir_grad and pct_grad, both nullable. -/
structure RecG where
  base : RecC
  dir_grad : Option Str
  pct_grad : Option Int
deriving DecidableEq

/-- Embeds the drop of the grade connecting keys on one joined pair. -/
def dropGradKeys (p : RecC × Option GradSeg) : RecG :=
  ⟨p.1, p.2.map GradSeg.dir_grad, p.2.map GradSeg.pct_grad⟩

/-- Embeds `records.fillna(value={pct_grad: 0})` on one row: only the grade
percentage is filled, dir_grad keeps its null. -/
def fillGrad (r : RecG) : RecG :=
  { r with pct_grad := some (r.pct_grad.getD 0) }

/-- Embeds `sample(frac=1).drop_duplicates(subset=CASENO).sort_index()` once
the shuffle is made explicit: the argument is the shuffled list of
(original index, row) pairs, drop_duplicates keeps the first row per key in
shuffled order, sort_index re-sorts the survivors by original index, and
the index is then discarded (the next to_sql call drops it). -/
def stagePick {α : Type} (key : α → Int) (shuffled : List (Nat × α)) : List α :=
  (List.insertionSort (fun a b => a.1 ≤ b.1)
      (dedupFirst (fun p => key p.2) shuffled)).map Prod.snd

/-- The road stage of meta_merge after the join, applied to a shuffled copy
of the indexed join output: deduplicate by case number, restore index order,
drop the connecting keys. -/
def roadFinish (shuffled : List (Nat × (CrashRow × RoadSeg))) : List RecR :=
  (stagePick (fun p => p.1.CASENO) shuffled).map dropRoadKeys

/-- The curve stage of meta_merge after the join: deduplicate by case number,
restore index order, drop the connecting keys, fill null curvature with 0. -/
def curvFinish (shuffled : List (Nat × (RecR × Option CurvSeg))) : List RecC :=
  ((stagePick (fun p => p.1.cr.CASENO) shuffled).map dropCurvKeys).map fillCurv

/-- The grade stage of meta_merge after the join: deduplicate by case number,
restore index order, drop the connecting keys, fill null grade percentage
with 0. -/
def gradFinish (shuffled : List (Nat × (RecC × Option GradSeg))) : List RecG :=
  ((stagePick (fun p => p.1.base.cr.CASENO) shuffled).map dropGradKeys).map
    fillGrad

/-- One cell of the final merged table: a string, a number, or a null (the
mixed content of dir_grad the post-processing loop normalizes). -/
inductive Cell where
  | str : Str → Cell
  | num : Int → Cell
  | null : Cell
deriving DecidableEq

/-- Embeds `isinstance(v, str)` on one cell. -/
def Cell.isStr : Cell → Bool
  | Cell.str _ => true
  | _ => false

/-- Embeds the body of the post-processing loop of meta_merge (s3_merge.py
lines 399..401) on one row: read the cell second from the end, leave the row
alone when it is a string, overwrite that cell with the string 0 (code 48)
otherwise. -/
def fixRow (row : List Cell) : List Cell :=
  if (row.getD (row.length - 2) Cell.null).isStr then row
  else row.set (row.length - 2) (Cell.str [48])

/-- Embeds the whole post-processing loop: every row of the table is fixed. -/
def fixTable (t : List (List Cell)) : List (List Cell) :=
  t.map fixRow

/-- A two-vehicle group for one case number: driver ages 70 and 20, driver
sex codes 1 and 2 (the synthetic example of the spec). -/
def exampleVeh : List VehRow :=
  [⟨1, 1, 70, 1, 5, 0⟩, ⟨1, 2, 20, 1, 5, 0⟩]

/-- A crash row whose milepost 5 lies outside the only road segment. -/
def crOutside : CrashRow := ⟨100, 7, 5⟩

/-- A road segment on inventory 7 covering mileposts 10..20. -/
def rsOnly : RoadSeg := ⟨7, 10, 20, 999⟩

/-- A primary table of three one-column rows. -/
def lackThree : Table := ⟨[[1], [2], [3]], 1⟩

/-- A secondary table of four one-column rows: one row more than the
primary. -/
def backupFour : Table := ⟨[[7], [8], [9], [10]], 1⟩

/-- A one-row table whose second-from-last cell is a null. -/
def exampleCells : List (List Cell) :=
  [[Cell.num 1, Cell.null, Cell.num 2]]

/-- The per-character test of the match loop accepts exactly the pairs whose
lowercased codes coincide: taking the second character to be the lower or the
upper image of the first is the same as equality up to ASCII case. -/
theorem charCase (a b : Nat) :
    (¬(pyLower a ≠ b ∧ pyUpper a ≠ b)) ↔ pyLower a = pyLower b := by
  unfold pyLower pyUpper
  split_ifs <;> omega

/-- The character loop of match, on strings of equal length, accepts exactly
the pointwise case-insensitive equal pairs. -/
theorem matchLoop_iff (f : Str) : ∀ (s : Str), f.length = s.length →
    (matchLoop f s = true ↔ ∀ p ∈ f.zip s, pyLower p.1 = pyLower p.2) := by
  induction f with
  | nil =>
    intro s h
    cases s with
    | nil => simp [matchLoop]
    | cons b bs => simp at h
  | cons a as ih =>
    intro s h
    cases s with
    | nil => simp at h
    | cons b bs =>
      have hlen : as.length = bs.length := by simpa using h
      by_cases hc : pyLower a ≠ b ∧ pyUpper a ≠ b
      · have hne : pyLower a ≠ pyLower b := fun he => ((charCase a b).mpr he) hc
        simp only [matchLoop, if_pos hc]
        constructor
        · intro hfalse; exact absurd hfalse (by simp)
        · intro hall
          exact absurd (hall (a, b) (by simp)) hne
      · have heq : pyLower a = pyLower b := (charCase a b).mp hc
        simp only [matchLoop, if_neg hc]
        rw [ih bs hlen]
        constructor
        · intro hall p hp
          rcases List.mem_cons.mp (by simpa using hp) with h1 | h1
          · rw [h1]; exact heq
          · exact hall p h1
        · intro hall p hp
          exact hall p (by simp [List.zip_cons_cons, List.mem_cons, hp])

/-- C4: for every pair of strings, match(first, second) returns True iff the
strings have equal length and each character pair is equal ignoring case; in
particular match(AcCtYpE, acctype) is True and match(ACC, ACCX) is False. -/
theorem C4_match_iff_equal_length_and_case_insensitive :
    (∀ first second : Str,
      strMatch first second = true ↔
        (first.length = second.length ∧
          ∀ p ∈ first.zip second, pyLower p.1 = pyLower p.2)) ∧
    strMatch strAcCtYpE stracctype = true ∧
    strMatch strACC strACCX = false := by
  refine ⟨?_, by decide, by decide⟩
  intro f s
  unfold strMatch
  by_cases h : f.length = s.length
  · rw [if_neg (fun hne => hne h), matchLoop_iff f s h]
    simp [h]
  · rw [if_pos h]
    simp [h]

/-- The first match that rename_col returns is an element of the reference
list. -/
theorem rename_col_mem (col : Str) :
    ∀ (refs : List Str) (v : Str), rename_col col refs = some v → v ∈ refs := by
  intro refs
  induction refs with
  | nil => intro v hv; simp [rename_col] at hv
  | cons r rs ih =>
    intro v hv
    by_cases h : strMatch col r = true
    · simp only [rename_col, if_pos h, Option.some.injEq] at hv
      rw [← hv]; exact List.mem_cons_self r rs
    · simp only [rename_col, if_neg h] at hv
      exact List.mem_cons_of_mem r (ih v hv)

/-- C10: find_match succeeds exactly when rename_col returns a value, and the
value rename_col returns is the first element of the reference list that
matches the column case-insensitively. -/
theorem C10_find_match_agrees_with_rename_col :
    ∀ (col : Str) (ref_list : List Str),
      (find_match col ref_list = true ↔ (rename_col col ref_list).isSome = true) ∧
      ∀ v : Str, rename_col col ref_list = some v →
        ∃ i : Fin ref_list.length,
          ref_list.get i = v ∧ strMatch col v = true ∧
            ∀ j : Fin ref_list.length, j.1 < i.1 →
              strMatch col (ref_list.get j) = false := by
  intro col refs
  induction refs with
  | nil =>
    refine ⟨by simp [find_match, rename_col], ?_⟩
    intro v hv
    simp [rename_col] at hv
  | cons r rs ih =>
    by_cases h : strMatch col r = true
    · refine ⟨by simp [find_match, rename_col, h], ?_⟩
      intro v hv
      simp only [rename_col, if_pos h, Option.some.injEq] at hv
      refine ⟨⟨0, by simp⟩, by simpa using hv, by rw [← hv]; exact h, ?_⟩
      intro j hj
      exact absurd hj (Nat.not_lt_zero j.1)
    · have hfalse : strMatch col r = false := by
        revert h; cases strMatch col r <;> simp
      refine ⟨by simp only [find_match, rename_col, if_neg h]; exact ih.1, ?_⟩
      intro v hv
      simp only [rename_col, if_neg h] at hv
      obtain ⟨i, hget, hm, hfirst⟩ := ih.2 v hv
      refine ⟨⟨i.1 + 1, by have := i.2; simp only [List.length_cons]; omega⟩,
        by simpa using hget, hm, ?_⟩
      intro j hj
      match j with
      | ⟨0, _⟩ => exact hfalse
      | ⟨m + 1, hmlt⟩ =>
        have := hfirst ⟨m, by simpa using hmlt⟩ (by simpa using hj)
        simpa using this

/-- The sex scan of veh_agg reports exactly the presence of a code above 1. -/
theorem sexScan_iff (l : List Int) : sexScan l = true ↔ ∃ e ∈ l, e > 1 := by
  induction l with
  | nil => simp [sexScan]
  | cons e es ih =>
    by_cases h : e > 1
    · simp [sexScan, h]
    · simp [sexScan, h, ih]

/-- The young scan of veh_agg reports exactly the presence of an age below
25. -/
theorem youngScan_iff (l : List Int) : youngScan l = true ↔ ∃ e ∈ l, e < 25 := by
  induction l with
  | nil => simp [youngScan]
  | cons e es ih =>
    by_cases h : e < 25
    · simp [youngScan, h]
    · simp [youngScan, h, ih]

/-- The old scan of veh_agg reports exactly the presence of an age above
65. -/
theorem oldScan_iff (l : List Int) : oldScan l = true ↔ ∃ e ∈ l, e > 65 := by
  induction l with
  | nil => simp [oldScan]
  | cons e es ih =>
    by_cases h : e > 65
    · simp [oldScan, h]
    · simp [oldScan, h, ih]

/-- The truck scan of veh_agg reports exactly the presence of a vehicle type
code above 4. -/
theorem truckScan_iff (l : List Int) : truckScan l = true ↔ ∃ e ∈ l, e > 4 := by
  induction l with
  | nil => simp [truckScan]
  | cons e es ih =>
    by_cases h : e > 4
    · simp [truckScan, h]
    · simp [truckScan, h, ih]

/-- The drink scan of veh_agg reports exactly the presence of an intoxication
code equal to 1 or 5. -/
theorem drinkScan_iff (l : List Int) :
    drinkScan l = true ↔ ∃ e ∈ l, e = 1 ∨ e = 5 := by
  induction l with
  | nil => simp [drinkScan]
  | cons e es ih =>
    by_cases h : e = 1 ∨ e = 5
    · simp [drinkScan, h]
    · simp [drinkScan, h, ih]

/-- C8: has_old_car is True for a group iff some vehicle code, decoded as
2000 plus the code when below 20 and 1900 plus the code otherwise, gives a
model year at least 15 years older than the crash year. -/
theorem C8_old_car_decodes_two_digit_years :
    ∀ (crash_year : Int) (series : List Int),
      old_car crash_year series = true ↔
        ∃ e ∈ series,
          crash_year - (if e < 20 then 2000 + e else 1900 + e) ≥ 15 := by
  intro cy series
  induction series with
  | nil => simp [old_car]
  | cons e es ih =>
    have hdec : (if e < 10 then (1900 : Int) + (100 + e)
        else if e < 20 then 1900 + (100 + e) else 1900 + e) =
        (if e < 20 then 2000 + e else 1900 + e) := by
      split_ifs <;> omega
    show (if cy - (if e < 10 then (1900 : Int) + (100 + e)
        else if e < 20 then 1900 + (100 + e) else 1900 + e) ≥ 15 then true
      else old_car cy es) = true ↔ _
    rw [hdec]
    by_cases h : cy - (if e < 20 then (2000 : Int) + e else 1900 + e) ≥ 15
    · simp only [if_pos h, List.mem_cons]
      constructor
      · intro _; exact ⟨e, Or.inl rfl, h⟩
      · intro _; trivial
    · simp only [if_neg h, List.mem_cons]
      rw [ih]
      constructor
      · rintro ⟨x, hx, hcond⟩; exact ⟨x, Or.inr hx, hcond⟩
      · rintro ⟨x, hx, hcond⟩
        rcases hx with rfl | hx
        · exact absurd hcond h
        · exact ⟨x, hx, hcond⟩

/-- A row kept by the first-wins scan was a row of the input. -/
theorem mem_dedupFirstAux {α : Type} (key : α → Int) :
    ∀ (l : List α) (seen : List Int) (x : α),
      x ∈ dedupFirstAux key seen l → x ∈ l := by
  intro l
  induction l with
  | nil => intro seen x hx; simp [dedupFirstAux] at hx
  | cons a as ih =>
    intro seen x hx
    by_cases h : key a ∈ seen
    · simp only [dedupFirstAux, if_pos h] at hx
      exact List.mem_cons_of_mem a (ih _ _ hx)
    · simp only [dedupFirstAux, if_neg h] at hx
      rcases List.mem_cons.mp hx with rfl | hx
      · exact List.mem_cons_self _ _
      · exact List.mem_cons_of_mem _ (ih _ _ hx)

/-- A key of the input that is not already retired survives the first-wins
scan. -/
theorem key_mem_dedupFirstAux {α : Type} (key : α → Int) :
    ∀ (l : List α) (seen : List Int) (k : Int),
      k ∈ l.map key → k ∉ seen →
      k ∈ (dedupFirstAux key seen l).map key := by
  intro l
  induction l with
  | nil => intro seen k hk _; simp at hk
  | cons a as ih =>
    intro seen k hk hns
    rw [List.map_cons] at hk
    rcases List.mem_cons.mp hk with rfl | hk2
    · by_cases h : key a ∈ seen
      · exact absurd h hns
      · simp only [dedupFirstAux, if_neg h, List.map_cons]
        exact List.mem_cons_self _ _
    · by_cases h : key a ∈ seen
      · simp only [dedupFirstAux, if_pos h]
        exact ih _ _ hk2 hns
      · simp only [dedupFirstAux, if_neg h, List.map_cons]
        by_cases hek : k = key a
        · rw [hek]; exact List.mem_cons_self _ _
        · refine List.mem_cons_of_mem _ (ih _ _ hk2 ?_)
          intro hc
          rcases List.mem_cons.mp hc with h1 | h1
          · exact hek h1
          · exact hns h1

/-- The keys kept by the first-wins scan are pairwise distinct and disjoint
from the retired keys. -/
theorem nodup_dedupFirstAux {α : Type} (key : α → Int) :
    ∀ (l : List α) (seen : List Int),
      ((dedupFirstAux key seen l).map key).Nodup ∧
      ∀ k ∈ (dedupFirstAux key seen l).map key, k ∉ seen := by
  intro l
  induction l with
  | nil => intro seen; simp [dedupFirstAux]
  | cons a as ih =>
    intro seen
    by_cases h : key a ∈ seen
    · simpa only [dedupFirstAux, if_pos h] using ih seen
    · simp only [dedupFirstAux, if_neg h, List.map_cons]
      obtain ⟨hnd, hdis⟩ := ih (key a :: seen)
      refine ⟨List.nodup_cons.mpr ⟨?_, hnd⟩, ?_⟩
      · intro hc
        exact (hdis _ hc) (List.mem_cons_self _ _)
      · intro k hk
        rcases List.mem_cons.mp hk with rfl | hk2
        · exact h
        · intro hc
          exact (hdis _ hk2) (List.mem_cons_of_mem _ hc)

/-- A row of the deduplicated, re-sorted stage output carried some original
index in the shuffled input. -/
theorem stagePick_mem {α : Type} (key : α → Int) (shuffled : List (Nat × α)) :
    ∀ z ∈ stagePick key shuffled, ∃ i : Nat, (i, z) ∈ shuffled := by
  intro z hz
  unfold stagePick at hz
  rcases List.mem_map.mp hz with ⟨p, hp, rfl⟩
  have hp2 : p ∈ dedupFirst (fun q => key q.2) shuffled :=
    (List.perm_insertionSort _ _).mem_iff.mp hp
  have hp3 : p ∈ shuffled := by
    unfold dedupFirst at hp2
    exact mem_dedupFirstAux (fun q => key q.2) shuffled [] p hp2
  exact ⟨p.1, by simpa using hp3⟩

/-- Every key occurring in the shuffled input also occurs in the stage
output. -/
theorem stagePick_key_mem {α : Type} (key : α → Int)
    (shuffled : List (Nat × α)) (k : Int)
    (hk : k ∈ shuffled.map fun p => key p.2) :
    k ∈ (stagePick key shuffled).map key := by
  unfold stagePick
  have heq : ((List.insertionSort (fun a b : Nat × α => a.1 ≤ b.1)
      (dedupFirst (fun q => key q.2) shuffled)).map Prod.snd).map key =
      (List.insertionSort (fun a b : Nat × α => a.1 ≤ b.1)
        (dedupFirst (fun q => key q.2) shuffled)).map fun q => key q.2 := by
    rw [List.map_map]; rfl
  rw [heq]
  have h1 : k ∈ (dedupFirst (fun q => key q.2) shuffled).map fun q => key q.2 :=
    key_mem_dedupFirstAux (fun q => key q.2) shuffled [] k hk (by simp)
  exact (((List.perm_insertionSort (fun a b : Nat × α => a.1 ≤ b.1)
    (dedupFirst (fun q => key q.2) shuffled)).map fun q => key q.2).mem_iff).mpr h1

/-- The keys of the stage output are pairwise distinct: one surviving row per
case number. -/
theorem stagePick_nodup {α : Type} (key : α → Int)
    (shuffled : List (Nat × α)) :
    ((stagePick key shuffled).map key).Nodup := by
  unfold stagePick
  have heq : ((List.insertionSort (fun a b : Nat × α => a.1 ≤ b.1)
      (dedupFirst (fun q => key q.2) shuffled)).map Prod.snd).map key =
      (List.insertionSort (fun a b : Nat × α => a.1 ≤ b.1)
        (dedupFirst (fun q => key q.2) shuffled)).map fun q => key q.2 := by
    rw [List.map_map]; rfl
  rw [heq]
  have hnd : ((dedupFirst (fun q => key q.2) shuffled).map fun q => key q.2).Nodup :=
    (nodup_dedupFirstAux (fun q => key q.2) shuffled []).1
  exact (((List.perm_insertionSort (fun a b : Nat × α => a.1 ≤ b.1)
    (dedupFirst (fun q => key q.2) shuffled)).map fun q => key q.2).symm).nodup hnd

/-- A pair of the shuffled indexed list is a row of the underlying list. -/
theorem mem_of_perm_enum {α : Type} {shuffled : List (Nat × α)} {l : List α}
    (hp : shuffled.Perm l.enum) (i : Nat) (z : α) (hz : (i, z) ∈ shuffled) :
    z ∈ l := by
  have h2 : (i, z) ∈ l.enum := hp.mem_iff.mp hz
  have h3 : z ∈ l.enum.map Prod.snd := List.mem_map_of_mem Prod.snd h2
  rwa [List.enum_map_snd] at h3

/-- Every row of the underlying list occurs, with some index, in the
shuffled indexed list. -/
theorem exists_idx_of_perm_enum {α : Type} {shuffled : List (Nat × α)}
    {l : List α} (hp : shuffled.Perm l.enum) (z : α) (hz : z ∈ l) :
    ∃ i : Nat, (i, z) ∈ shuffled := by
  have h2 : z ∈ l.enum.map Prod.snd := by rwa [List.enum_map_snd]
  rcases List.mem_map.mp h2 with ⟨p, hp2, hsnd⟩
  refine ⟨p.1, hp.mem_iff.mpr ?_⟩
  rw [← hsnd]
  simpa using hp2

/-- The inner join holds a pair exactly when both rows are in their tables
and the predicate accepts them. -/
theorem mem_innerJoin {α β : Type} (pred : α → β → Bool) (as0 : List α)
    (bs : List β) (a : α) (b : β) :
    (a, b) ∈ innerJoin pred as0 bs ↔ a ∈ as0 ∧ b ∈ bs ∧ pred a b = true := by
  unfold innerJoin
  rw [List.mem_flatMap]
  constructor
  · rintro ⟨a2, ha2, hmem⟩
    rcases List.mem_map.mp hmem with ⟨b2, hb2, heq⟩
    injection heq with h1 h2
    subst h1; subst h2
    rcases List.mem_filter.mp hb2 with ⟨hb, hpred⟩
    exact ⟨ha2, hb, hpred⟩
  · rintro ⟨ha, hb, hpred⟩
    exact ⟨a, ha, List.mem_map_of_mem _ (List.mem_filter.mpr ⟨hb, hpred⟩)⟩

/-- The left join holds a matched pair exactly when both rows are in their
tables and the predicate accepts them. -/
theorem mem_leftJoin_some {α β : Type} [DecidableEq β] (pred : α → β → Bool)
    (records : List α) (tbl : List β) (r : α) (s : β) :
    (r, some s) ∈ leftJoin pred records tbl ↔
      r ∈ records ∧ s ∈ tbl ∧ pred r s = true := by
  unfold leftJoin
  rw [List.mem_flatMap]
  constructor
  · rintro ⟨r2, hr2, hmem⟩
    by_cases hf : tbl.filter (pred r2) = []
    · rw [if_pos hf] at hmem
      simp at hmem
    · rw [if_neg hf] at hmem
      rcases List.mem_map.mp hmem with ⟨b, hb, heq⟩
      injection heq with h1 h2
      injection h2 with h3
      subst h1; subst h3
      rcases List.mem_filter.mp hb with ⟨hbt, hpred⟩
      exact ⟨hr2, hbt, hpred⟩
  · rintro ⟨hr, hs, hpred⟩
    refine ⟨r, hr, ?_⟩
    have hmem : s ∈ tbl.filter (pred r) := List.mem_filter.mpr ⟨hs, hpred⟩
    rw [if_neg (fun hf => by rw [hf] at hmem; simp at hmem)]
    exact List.mem_map_of_mem _ hmem

/-- The base row of any left-join output row is a row of the left table. -/
theorem mem_leftJoin_base {α β : Type} [DecidableEq β] (pred : α → β → Bool)
    (records : List α) (tbl : List β) (x : α × Option β)
    (hx : x ∈ leftJoin pred records tbl) : x.1 ∈ records := by
  unfold leftJoin at hx
  rcases List.mem_flatMap.mp hx with ⟨r2, hr2, hmem⟩
  by_cases hf : tbl.filter (pred r2) = []
  · rw [if_pos hf] at hmem
    rcases List.mem_singleton.mp hmem with rfl
    exact hr2
  · rw [if_neg hf] at hmem
    rcases List.mem_map.mp hmem with ⟨b, _, heq⟩
    rw [← heq]
    exact hr2

/-- Every row of the left table yields at least one left-join output row. -/
theorem leftJoin_exists {α β : Type} [DecidableEq β] (pred : α → β → Bool)
    (records : List α) (tbl : List β) (r : α) (hr : r ∈ records) :
    ∃ x : Option β, (r, x) ∈ leftJoin pred records tbl := by
  unfold leftJoin
  by_cases hf : tbl.filter (pred r) = []
  · exact ⟨none, List.mem_flatMap.mpr ⟨r, hr, by rw [if_pos hf]; simp⟩⟩
  · rcases List.exists_mem_of_ne_nil _ hf with ⟨s, hs⟩
    exact ⟨some s, List.mem_flatMap.mpr
      ⟨r, hr, by rw [if_neg hf]; exact List.mem_map_of_mem _ hs⟩⟩

/-- A left-join output row whose base row matches no segment carries the
null: the base survives with a none partner. -/
theorem leftJoin_fst_none {α β : Type} [DecidableEq β] (pred : α → β → Bool)
    (records : List α) (tbl : List β) (r : α) (x : Option β)
    (hx : (r, x) ∈ leftJoin pred records tbl)
    (hf : tbl.filter (pred r) = []) : x = none := by
  unfold leftJoin at hx
  rcases List.mem_flatMap.mp hx with ⟨r2, hr2, hmem⟩
  by_cases hf2 : tbl.filter (pred r2) = []
  · rw [if_pos hf2] at hmem
    have heq := List.mem_singleton.mp hmem
    exact congrArg Prod.snd heq
  · rw [if_neg hf2] at hmem
    rcases List.mem_map.mp hmem with ⟨b, hb, heq⟩
    have h1 : r2 = r := congrArg Prod.fst heq
    rw [h1] at hf2
    exact absurd hf hf2

/-- In a left-join stage with pairwise distinct base keys, every base row
key survives the shuffle, the deduplication and the re-sort; and a base row
matching nothing survives as the pair carrying the null. -/
theorem leftStage_pick {α β : Type} [DecidableEq β] (key : α → Int)
    (pred : α → β → Bool) (records : List α) (tbl : List β)
    (shuffled : List (Nat × (α × Option β)))
    (hperm : shuffled.Perm (leftJoin pred records tbl).enum)
    (hnd : (records.map key).Nodup) (r : α) (hr : r ∈ records) :
    (∃ z ∈ stagePick (fun p => key p.1) shuffled, key z.1 = key r) ∧
    (tbl.filter (pred r) = [] →
      (r, (none : Option β)) ∈ stagePick (fun p => key p.1) shuffled) := by
  obtain ⟨x, hx⟩ := leftJoin_exists pred records tbl r hr
  obtain ⟨i, hi⟩ := exists_idx_of_perm_enum hperm (r, x) hx
  have hk : key r ∈ shuffled.map fun p => key p.2.1 := by
    have := List.mem_map_of_mem (fun p : Nat × (α × Option β) => key p.2.1) hi
    simpa using this
  have hk2 : key r ∈ (stagePick (fun p => key p.1) shuffled).map fun p => key p.1 :=
    stagePick_key_mem (fun p => key p.1) shuffled (key r) hk
  obtain ⟨z, hz, hkey⟩ := List.mem_map.mp hk2
  refine ⟨⟨z, hz, hkey⟩, ?_⟩
  intro hf
  obtain ⟨j, hj⟩ := stagePick_mem (fun p => key p.1) shuffled z hz
  have hzl : z ∈ leftJoin pred records tbl := mem_of_perm_enum hperm j z hj
  have hz1 : z.1 ∈ records := mem_leftJoin_base pred records tbl z hzl
  have heq1 : z.1 = r := List.inj_on_of_nodup_map hnd hz1 hr hkey
  have hz2 : z.2 = none := by
    have hzl2 : (z.1, z.2) ∈ leftJoin pred records tbl := by simpa using hzl
    rw [heq1] at hzl2
    exact leftJoin_fst_none pred records tbl r z.2 hzl2 hf
  have hzeq : z = (r, none) := by
    rw [← heq1, ← hz2]
  rw [← hzeq]
  exact hz

/-- C6: in every interval-join stage of meta_merge a base row is paired with
a segment row iff the inventory keys are equal and the milepost lies in the
closed segment range, endpoints included. -/
theorem C6_join_predicate_is_key_equality_and_closed_range :
    (∀ (crash : List CrashRow) (road : List RoadSeg) (c : CrashRow)
        (s : RoadSeg),
      (c, s) ∈ roadJoin crash road ↔
        c ∈ crash ∧ s ∈ road ∧
          (c.rd_inv = s.ROAD_INV ∧ s.BEGMP ≤ c.milepost ∧
            c.milepost ≤ s.ENDMP)) ∧
    (∀ (records : List RecR) (curv : List CurvSeg) (r : RecR) (s : CurvSeg),
      (r, some s) ∈ curvJoin records curv ↔
        r ∈ records ∧ s ∈ curv ∧
          (r.cr.rd_inv = s.curv_inv ∧ s.begmp ≤ r.cr.milepost ∧
            r.cr.milepost ≤ s.endmp)) ∧
    (∀ (records : List RecC) (grad : List GradSeg) (r : RecC) (s : GradSeg),
      (r, some s) ∈ gradJoin records grad ↔
        r ∈ records ∧ s ∈ grad ∧
          (r.base.cr.rd_inv = s.grad_inv ∧ s.begmp ≤ r.base.cr.milepost ∧
            r.base.cr.milepost ≤ s.endmp)) := by
  refine ⟨?_, ?_, ?_⟩
  · intro crash road c s
    unfold roadJoin
    rw [mem_innerJoin]
    simp [roadPred]
  · intro records curv r s
    unfold curvJoin
    rw [mem_leftJoin_some]
    simp [curvPred]
  · intro records grad r s
    unfold gradJoin
    rw [mem_leftJoin_some]
    simp [gradPred]

/-- C3: after each interval-join stage the surviving case numbers are
pairwise distinct, and each surviving row is one of the rows the join
produced (an arbitrary matching row per case, across every shuffle). -/
theorem C3_each_case_number_survives_exactly_once :
    (∀ (crash : List CrashRow) (road : List RoadSeg)
        (shuffled : List (Nat × (CrashRow × RoadSeg))),
      shuffled.Perm (roadJoin crash road).enum →
        (((roadFinish shuffled).map fun x => x.cr.CASENO).Nodup ∧
          ∀ x ∈ roadFinish shuffled, ∃ y ∈ roadJoin crash road,
            x = dropRoadKeys y)) ∧
    (∀ (records : List RecR) (curv : List CurvSeg)
        (shuffled : List (Nat × (RecR × Option CurvSeg))),
      shuffled.Perm (curvJoin records curv).enum →
        (((curvFinish shuffled).map fun x => x.base.cr.CASENO).Nodup ∧
          ∀ x ∈ curvFinish shuffled, ∃ y ∈ curvJoin records curv,
            x = fillCurv (dropCurvKeys y))) ∧
    (∀ (records : List RecC) (grad : List GradSeg)
        (shuffled : List (Nat × (RecC × Option GradSeg))),
      shuffled.Perm (gradJoin records grad).enum →
        (((gradFinish shuffled).map fun x => x.base.base.cr.CASENO).Nodup ∧
          ∀ x ∈ gradFinish shuffled, ∃ y ∈ gradJoin records grad,
            x = fillGrad (dropGradKeys y))) := by
  refine ⟨?_, ?_, ?_⟩
  · intro crash road shuffled hperm
    constructor
    · unfold roadFinish
      rw [List.map_map]
      exact stagePick_nodup (fun p => p.1.CASENO) shuffled
    · intro x hx
      unfold roadFinish at hx
      rcases List.mem_map.mp hx with ⟨z, hz, rfl⟩
      obtain ⟨i, hi⟩ := stagePick_mem (fun p => p.1.CASENO) shuffled z hz
      exact ⟨z, mem_of_perm_enum hperm i z hi, rfl⟩
  · intro records curv shuffled hperm
    constructor
    · unfold curvFinish
      rw [List.map_map, List.map_map]
      exact stagePick_nodup (fun p => p.1.cr.CASENO) shuffled
    · intro x hx
      unfold curvFinish at hx
      rcases List.mem_map.mp hx with ⟨x1, hx1, rfl⟩
      rcases List.mem_map.mp hx1 with ⟨z, hz, rfl⟩
      obtain ⟨i, hi⟩ := stagePick_mem (fun p => p.1.cr.CASENO) shuffled z hz
      exact ⟨z, mem_of_perm_enum hperm i z hi, rfl⟩
  · intro records grad shuffled hperm
    constructor
    · unfold gradFinish
      rw [List.map_map, List.map_map]
      exact stagePick_nodup (fun p => p.1.base.cr.CASENO) shuffled
    · intro x hx
      unfold gradFinish at hx
      rcases List.mem_map.mp hx with ⟨x1, hx1, rfl⟩
      rcases List.mem_map.mp hx1 with ⟨z, hz, rfl⟩
      obtain ⟨i, hi⟩ := stagePick_mem (fun p => p.1.base.cr.CASENO) shuffled z hz
      exact ⟨z, mem_of_perm_enum hperm i z hi, rfl⟩

/-- C1 fails on the road stage: a crash row whose milepost lies outside the
only road segment satisfies the claim hypotheses, yet the road stage output
is empty, so the row is dropped instead of appearing with defaults (the road
query is an inner join, not a left join). -/
theorem C1_counterexample_road_stage_drops_unmatched_rows :
    crOutside ∈ [crOutside] ∧
    roadPred crOutside rsOnly = false ∧
    roadJoin [crOutside] [rsOnly] = [] ∧
    roadFinish ((roadJoin [crOutside] [rsOnly]).enum) = [] := by
  refine ⟨by decide, by decide, by decide, by decide⟩

/-- C1 amended: in the curve and grade stages (left joins) every base row
survives under any shuffle when case numbers are distinct, and a row matching
no segment survives with its curvature, or grade percentage, filled with the
default 0; the road stage (inner join) only outputs rows matched by some
road segment. -/
theorem C1_amended_only_left_stages_preserve_unmatched_rows :
    (∀ (records : List RecR) (curv : List CurvSeg)
        (shuffled : List (Nat × (RecR × Option CurvSeg))),
      shuffled.Perm (curvJoin records curv).enum →
      (records.map fun r => r.cr.CASENO).Nodup →
      ∀ r ∈ records,
        (∃ out ∈ curvFinish shuffled, out.base.cr.CASENO = r.cr.CASENO) ∧
        (curv.filter (curvPred r) = [] →
          RecC.mk r (some 0) ∈ curvFinish shuffled)) ∧
    (∀ (records : List RecC) (grad : List GradSeg)
        (shuffled : List (Nat × (RecC × Option GradSeg))),
      shuffled.Perm (gradJoin records grad).enum →
      (records.map fun r => r.base.cr.CASENO).Nodup →
      ∀ r ∈ records,
        (∃ out ∈ gradFinish shuffled,
          out.base.base.cr.CASENO = r.base.cr.CASENO) ∧
        (grad.filter (gradPred r) = [] →
          RecG.mk r none (some 0) ∈ gradFinish shuffled)) ∧
    (∀ (crash : List CrashRow) (road : List RoadSeg)
        (shuffled : List (Nat × (CrashRow × RoadSeg))),
      shuffled.Perm (roadJoin crash road).enum →
      ∀ x ∈ roadFinish shuffled, ∃ c ∈ crash, ∃ s ∈ road,
        roadPred c s = true ∧ x = dropRoadKeys (c, s)) := by
  refine ⟨?_, ?_, ?_⟩
  · intro records curv shuffled hperm hnd r hr
    obtain ⟨⟨z, hz, hkey⟩, hnone⟩ :=
      leftStage_pick (fun q : RecR => q.cr.CASENO) curvPred records curv
        shuffled hperm hnd r hr
    constructor
    · refine ⟨fillCurv (dropCurvKeys z), ?_, hkey⟩
      unfold curvFinish
      exact List.mem_map_of_mem _ (List.mem_map_of_mem _ hz)
    · intro hf
      have hmem := hnone hf
      unfold curvFinish
      exact List.mem_map_of_mem _ (List.mem_map_of_mem _ hmem)
  · intro records grad shuffled hperm hnd r hr
    obtain ⟨⟨z, hz, hkey⟩, hnone⟩ :=
      leftStage_pick (fun q : RecC => q.base.cr.CASENO) gradPred records grad
        shuffled hperm hnd r hr
    constructor
    · refine ⟨fillGrad (dropGradKeys z), ?_, hkey⟩
      unfold gradFinish
      exact List.mem_map_of_mem _ (List.mem_map_of_mem _ hz)
    · intro hf
      have hmem := hnone hf
      unfold gradFinish
      exact List.mem_map_of_mem _ (List.mem_map_of_mem _ hmem)
  · intro crash road shuffled hperm x hx
    unfold roadFinish at hx
    rcases List.mem_map.mp hx with ⟨z, hz, rfl⟩
    obtain ⟨i, hi⟩ := stagePick_mem (fun p => p.1.CASENO) shuffled z hz
    have hzj : z ∈ roadJoin crash road := mem_of_perm_enum hperm i z hi
    have hzj2 : (z.1, z.2) ∈ roadJoin crash road := by simpa using hzj
    obtain ⟨h1, h2, h3⟩ :=
      (mem_innerJoin roadPred crash road z.1 z.2).mp hzj2
    exact ⟨z.1, h1, z.2, h2, h3, rfl⟩

/-- Existence over a mapped column is existence of a row with the projected
property. -/
theorem exists_map_iff {α : Type} (f : α → Int) (l : List α) (P : Int → Prop) :
    (∃ e ∈ l.map f, P e) ↔ ∃ r ∈ l, P (f r) := by
  constructor
  · rintro ⟨e, he, hp⟩
    rcases List.mem_map.mp he with ⟨r, hr, rfl⟩
    exact ⟨r, hr, hp⟩
  · rintro ⟨r, hr, hp⟩
    exact ⟨f r, List.mem_map_of_mem f hr, hp⟩

/-- C7: for a non-empty group of vehicle rows sharing a case number, each
aggregated boolean of veh_agg is True iff some vehicle of the group satisfies
its predicate, and the aggregated row for that case number is a row of the
veh_agg output. -/
theorem C7_aggregated_booleans_are_group_existentials (crash_year : Int)
    (df : List VehRow) (cn : Int) (h : vehGroup df cn ≠ []) :
    ((veh_agg_row crash_year df cn).sex = true ↔
      ∃ r ∈ vehGroup df cn, r.DRV_SEX > 1) ∧
    ((veh_agg_row crash_year df cn).young = true ↔
      ∃ r ∈ vehGroup df cn, r.DRV_AGE < 25) ∧
    ((veh_agg_row crash_year df cn).old = true ↔
      ∃ r ∈ vehGroup df cn, r.DRV_AGE > 65) ∧
    ((veh_agg_row crash_year df cn).truck = true ↔
      ∃ r ∈ vehGroup df cn, r.vehtype > 4) ∧
    ((veh_agg_row crash_year df cn).drink = true ↔
      ∃ r ∈ vehGroup df cn, (r.intox = 1 ∨ r.intox = 5)) ∧
    veh_agg_row crash_year df cn ∈ veh_agg crash_year df := by
  have hmem : cn ∈ df.map VehRow.CASENO := by
    cases hg : vehGroup df cn with
    | nil => exact absurd hg h
    | cons g gs =>
      have hgmem : g ∈ vehGroup df cn := by
        rw [hg]; exact List.mem_cons_self _ _
      unfold vehGroup at hgmem
      rcases List.mem_filter.mp hgmem with ⟨hgdf, hgcn⟩
      have hcase : g.CASENO = cn := of_decide_eq_true hgcn
      rw [← hcase]
      exact List.mem_map_of_mem _ hgdf
  refine ⟨?_, ?_, ?_, ?_, ?_, ?_⟩
  · show sexScan ((vehGroup df cn).map VehRow.DRV_SEX) = true ↔ _
    rw [sexScan_iff, exists_map_iff]
  · show youngScan ((vehGroup df cn).map VehRow.DRV_AGE) = true ↔ _
    rw [youngScan_iff, exists_map_iff]
  · show oldScan ((vehGroup df cn).map VehRow.DRV_AGE) = true ↔ _
    rw [oldScan_iff, exists_map_iff]
  · show truckScan ((vehGroup df cn).map VehRow.vehtype) = true ↔ _
    rw [truckScan_iff, exists_map_iff]
  · show drinkScan ((vehGroup df cn).map VehRow.intox) = true ↔ _
    rw [drinkScan_iff, exists_map_iff]
  · unfold veh_agg
    have h1 : cn ∈ dedupFirst (fun k => k) (df.map VehRow.CASENO) := by
      have h0 := key_mem_dedupFirstAux (fun k : Int => k)
        (df.map VehRow.CASENO) [] cn (by simpa using hmem) (by simp)
      simpa using h0
    have h2 : cn ∈ List.insertionSort (fun a b => a ≤ b)
        (dedupFirst (fun k => k) (df.map VehRow.CASENO)) :=
      (List.perm_insertionSort _ _).mem_iff.mpr h1
    exact List.mem_map_of_mem _ h2

/-- C7 witness: on the two-vehicle group with ages 70 and 20 and sex codes 1
and 2, the iffs hold and has_old_driver, has_young_driver and has_mixed_sex
all come out True. -/
theorem C7_witness_ages_70_20_sexes_1_2 :
    (((veh_agg_row 2015 exampleVeh 1).sex = true ↔
        ∃ r ∈ vehGroup exampleVeh 1, r.DRV_SEX > 1) ∧
      ((veh_agg_row 2015 exampleVeh 1).young = true ↔
        ∃ r ∈ vehGroup exampleVeh 1, r.DRV_AGE < 25) ∧
      ((veh_agg_row 2015 exampleVeh 1).old = true ↔
        ∃ r ∈ vehGroup exampleVeh 1, r.DRV_AGE > 65) ∧
      ((veh_agg_row 2015 exampleVeh 1).truck = true ↔
        ∃ r ∈ vehGroup exampleVeh 1, r.vehtype > 4) ∧
      ((veh_agg_row 2015 exampleVeh 1).drink = true ↔
        ∃ r ∈ vehGroup exampleVeh 1, (r.intox = 1 ∨ r.intox = 5)) ∧
      veh_agg_row 2015 exampleVeh 1 ∈ veh_agg 2015 exampleVeh) ∧
    ((veh_agg_row 2015 exampleVeh 1).old = true ∧
      (veh_agg_row 2015 exampleVeh 1).young = true ∧
      (veh_agg_row 2015 exampleVeh 1).sex = true) :=
  ⟨C7_aggregated_booleans_are_group_existentials 2015 exampleVeh 1 (by decide),
    by decide⟩

/-- C5 fails as stated: a secondary table with one row more than the primary
is a row-count mismatch, yet every assert passes and the merge succeeds, the
extra secondary row silently ignored. -/
theorem C5_counterexample_longer_secondary_passes_asserts :
    lackThree.rows.length ≠ backupFour.rows.length ∧
    merge_step lackThree backupFour 1 =
      Except.ok (Table.mk [[1, 7], [2, 8], [3, 9]] 2) := by
  exact ⟨by decide, rfl⟩

/-- C5 amended: a successful reconciliation merge preserves the primary row
count and adds exactly the copied column count; a secondary with fewer rows
than the primary trips the row assert, and a secondary whose column count
differs from the copied attribute count trips the shape assert; but a
secondary with more rows than the primary is silently truncated. -/
theorem C5_amended_asserts_catch_only_short_secondary :
    ∀ (lack backup : Table) (nval : Nat),
      (∀ t : Table, merge_step lack backup nval = Except.ok t →
        t.rows.length = lack.rows.length ∧ t.ncol = lack.ncol + nval) ∧
      (backup.ncol = nval → backup.rows.length < lack.rows.length →
        merge_step lack backup nval = Except.error MergeErr.rowAssert) ∧
      (backup.ncol ≠ nval →
        merge_step lack backup nval = Except.error MergeErr.shapeAssert) := by
  intro lack backup nval
  have hlen : (merge_on_index lack backup).rows.length =
      min lack.rows.length backup.rows.length := by
    unfold merge_on_index
    exact List.length_zipWith _ _ _
  refine ⟨?_, ?_, ?_⟩
  · intro t ht
    unfold merge_step at ht
    by_cases h1 : backup.ncol = nval
    · rw [if_pos h1] at ht
      by_cases h2 : (merge_on_index lack backup).rows.length = lack.rows.length
      · rw [if_pos h2] at ht
        by_cases h3 : lack.ncol + nval = (merge_on_index lack backup).ncol
        · rw [if_pos h3] at ht
          have hth : merge_on_index lack backup = t := by
            injection ht
          rw [← hth]
          exact ⟨h2, h3.symm⟩
        · rw [if_neg h3] at ht
          cases ht
      · rw [if_neg h2] at ht
        cases ht
    · rw [if_neg h1] at ht
      cases ht
  · intro h1 hlt
    unfold merge_step
    rw [if_pos h1]
    have h2 : ¬ (merge_on_index lack backup).rows.length = lack.rows.length := by
      rw [hlen]
      omega
    rw [if_neg h2]
  · intro h1
    unfold merge_step
    rw [if_neg h1]

/-- C5 amended witness: with a two-row primary of one column and a one-row
secondary of one column, the row assert trips; with a wrong nval, the shape
assert trips; and the successful merge of equal-length tables keeps two rows
and widens to two columns. -/
theorem C5_amended_witness :
    merge_step (Table.mk [[1], [2]] 1) (Table.mk [[7]] 1) 1 =
      Except.error MergeErr.rowAssert ∧
    merge_step (Table.mk [[1], [2]] 1) (Table.mk [[7]] 1) 2 =
      Except.error MergeErr.shapeAssert :=
  ⟨(C5_amended_asserts_catch_only_short_secondary
      (Table.mk [[1], [2]] 1) (Table.mk [[7]] 1) 1).2.1 (by decide) (by decide),
    (C5_amended_asserts_catch_only_short_secondary
      (Table.mk [[1], [2]] 1) (Table.mk [[7]] 1) 2).2.2 (by decide)⟩

/-- C2 fails as stated: the attribute FOO has no case-insensitive match among
the backup columns, rename_col resolves it to None, the resolved list holding
that None is handed to the column selection, and the selection fails with the
generic KeyError, which carries no category, year or attribute information;
no named data-quality error is raised before the null selection. -/
theorem C2_counterexample_unmatched_attribute_reaches_selection :
    rename_col strFOO [strBAR] = none ∧
    ([strFOO].map fun c => rename_col c [strBAR]) = [none] ∧
    resolve_then_select [strFOO] [strBAR] = Except.error PdError.keyError := by
  exact ⟨rfl, rfl, rfl⟩

/-- C2 amended: when some canonical attribute has no case-insensitive match
in the secondary source columns, rename_col yields a None mapping and the
subsequent column selection fails with the generic KeyError (no category,
year or attribute named); the pipeline does not silently drop the column. -/
theorem C2_amended_null_mapping_reaches_selection_and_fails_generically :
    ∀ (val : List Str) (backup_cols : List Str),
      (∃ c ∈ val, rename_col c backup_cols = none) →
      resolve_then_select val backup_cols = Except.error PdError.keyError := by
  intro val cols
  induction val with
  | nil =>
    intro h
    rcases h with ⟨c, hc, _⟩
    simp at hc
  | cons c cs ih =>
    intro h
    show selectByNames cols ((c :: cs).map fun col => rename_col col cols) =
      Except.error PdError.keyError
    rw [List.map_cons]
    cases hre : rename_col c cols with
    | none => simp [selectByNames]
    | some nm =>
      have hnm : nm ∈ cols := rename_col_mem c cols nm hre
      have hrest : selectByNames cols (cs.map fun col => rename_col col cols) =
          Except.error PdError.keyError := by
        apply ih
        rcases h with ⟨c2, hc2, hnone⟩
        rcases List.mem_cons.mp hc2 with rfl | hc2
        · rw [hre] at hnone
          cases hnone
        · exact ⟨c2, hc2, hnone⟩
      simp [selectByNames, hnm, hrest]

/-- C2 amended witness: the single unmatched attribute FOO against the
column list holding only BAR makes the whole resolve-and-select step fail
with the generic KeyError. -/
theorem C2_amended_witness :
    resolve_then_select [strFOO] [strBAR] = Except.error PdError.keyError :=
  C2_amended_null_mapping_reaches_selection_and_fails_generically
    [strFOO] [strBAR] ⟨strFOO, List.mem_singleton.mpr rfl, rfl⟩

/-- Setting a cell and reading it back at the same position, inside the list,
gives the new value. -/
theorem getD_set_self {α : Type} (d v : α) :
    ∀ (l : List α) (k : Nat), k < l.length → (l.set k v).getD k d = v := by
  intro l
  induction l with
  | nil => intro k hk; simp at hk
  | cons a as ih =>
    intro k hk
    cases k with
    | zero => simp
    | succ n =>
      have hn : n < as.length := by simpa using hk
      simpa using ih n hn

/-- Setting a cell leaves every other position unchanged. -/
theorem getD_set_other {α : Type} (d v : α) :
    ∀ (l : List α) (k j : Nat), j ≠ k → (l.set k v).getD j d = l.getD j d := by
  intro l
  induction l with
  | nil => intro k j hj; simp
  | cons a as ih =>
    intro k j hj
    cases k with
    | zero =>
      cases j with
      | zero => exact absurd rfl hj
      | succ m => simp
    | succ n =>
      cases j with
      | zero => simp
      | succ m =>
        have hm : m ≠ n := fun he => hj (by rw [he])
        simpa using ih n m hm

/-- C9: the post-processing loop leaves a row alone when the cell second from
the end is already a string, and otherwise overwrites exactly that cell with
the string 0, keeping all other cells; the fixed row is a row of the fixed
table. -/
theorem C9_second_from_last_cell_normalized_to_string_zero
    (t : List (List Cell)) (row : List Cell) (h1 : row ∈ t)
    (h2 : 2 ≤ row.length) :
    fixRow row ∈ fixTable t ∧
    ((row.getD (row.length - 2) Cell.null).isStr = true → fixRow row = row) ∧
    ((row.getD (row.length - 2) Cell.null).isStr = false →
      (fixRow row).getD (row.length - 2) Cell.null = Cell.str [48] ∧
      ∀ j : Nat, j ≠ row.length - 2 →
        (fixRow row).getD j Cell.null = row.getD j Cell.null) := by
  refine ⟨List.mem_map_of_mem fixRow h1, ?_, ?_⟩
  · intro hs
    unfold fixRow
    rw [if_pos hs]
  · intro hs
    have hne : ¬ (row.getD (row.length - 2) Cell.null).isStr = true := by
      rw [hs]; exact Bool.false_ne_true
    have hset : fixRow row = row.set (row.length - 2) (Cell.str [48]) := by
      unfold fixRow
      rw [if_neg hne]
    constructor
    · rw [hset]
      exact getD_set_self _ _ row (row.length - 2) (by omega)
    · intro j hj
      rw [hset]
      exact getD_set_other _ _ row (row.length - 2) j hj

/-- C9 witness: on the one-row table whose middle cell (second from the end)
is a null, the fixed row keeps its place in the table, and the null cell
becomes the string 0 while every other cell is unchanged. -/
theorem C9_witness :
    fixRow [Cell.num 1, Cell.null, Cell.num 2] ∈ fixTable exampleCells ∧
    (Cell.null.isStr = true →
      fixRow [Cell.num 1, Cell.null, Cell.num 2] =
        [Cell.num 1, Cell.null, Cell.num 2]) ∧
    (Cell.null.isStr = false →
      (fixRow [Cell.num 1, Cell.null, Cell.num 2]).getD 1 Cell.null =
        Cell.str [48] ∧
      ∀ j : Nat, j ≠ 1 →
        (fixRow [Cell.num 1, Cell.null, Cell.num 2]).getD j Cell.null =
          [Cell.num 1, Cell.null, Cell.num 2].getD j Cell.null) :=
  C9_second_from_last_cell_normalized_to_string_zero exampleCells
    [Cell.num 1, Cell.null, Cell.num 2] (by decide) (by decide)

end CrashInference
